import Mathlib

/-!
Verification of the api-conver protocol translation engine: a shallow Lean
embedding of the Go source (the Gin implementation under internal/ and the
monolithic single-file implementation), with theorems about the translator
and stream-reframer behaviour.

Conventions of the embedding:
* Go `interface{}` values produced by encoding/json are modelled by `JValue`
  (JSON numbers carry their literal text, matching `decoder.UseNumber()`;
  the code never computes with numbers, only copies them).
* Go `strings.TrimSpace` is modelled by `trimSpace` (Latin-1 whitespace;
  identical on the inputs exercised here).
* Go `json.Marshal` of such values is modelled by `jsonMarshal` (keys of an
  object are emitted in sorted order, as Go does for maps; strings are
  escaped with Go's default HTML-escaping encoder).
* Go `json.Unmarshal` into `interface{}` is modelled by `jsonParse`, a
  fuel-bounded recursive-descent parser over the JSON grammar.
* `time.Now().UnixNano()`-based synthetic ids are modelled by a `Nat`
  counter threaded through the functions that may generate ids; the code
  relies only on the tokens being fresh strings.
* Go `float64` request knobs (temperature, top_p) are never interpreted by
  the code, only copied; they are modelled by `GoFloat`, an uninterpreted
  64-bit pattern.
-/

/-- JSON value as decoded by Go's encoding/json into `interface{}`.
Numbers keep their source literal (`json.Number` under `UseNumber()`);
objects are association lists (Go maps; duplicate keys are resolved
last-wins at parse time, and marshalling sorts keys). -/
inductive JValue where
  | null : JValue
  | bool : Bool → JValue
  | num : String → JValue
  | str : String → JValue
  | arr : List JValue → JValue
  | obj : List (String × JValue) → JValue

/-- First value stored under key `k`, if any (Go `m[k]` hit test). -/
def JValue.lookupField : List (String × JValue) → String → Option JValue
  | [], _ => none
  | (k0, v) :: rest, k => if k = k0 then some v else JValue.lookupField rest k

/-- Go pattern `s, _ := m[k].(string)`: the string stored at `k`, or `""`. -/
def JValue.lookupStr (fields : List (String × JValue)) (k : String) : String :=
  match JValue.lookupField fields k with
  | some (JValue.str s) => s
  | _ => ""

/-- Go pattern `s, ok := m[k].(string)`: `some s` iff `k` holds a string. -/
def JValue.lookupStrOk (fields : List (String × JValue)) (k : String) : Option String :=
  match JValue.lookupField fields k with
  | some (JValue.str s) => some s
  | _ => none

/-- Go map access `m[k]` as an `interface{}` value: absent keys read as nil. -/
def JValue.lookupVal (fields : List (String × JValue)) (k : String) : JValue :=
  (JValue.lookupField fields k).getD JValue.null

/-- Left brace character, kept out of string literals. -/
def lbrace : Char := Char.ofNat 123

/-- Right brace character, kept out of string literals. -/
def rbrace : Char := Char.ofNat 125

/-- Escape one character the way Go's default JSON encoder does: quote,
backslash, the common control shorthands, `\u00XX` for other control
characters, and HTML-escaping of angle brackets and ampersand. -/
def jsonEscapeChar (c : Char) : String :=
  if c = '"' then "\\\""
  else if c = '\\' then "\\\\"
  else if c = '\n' then "\\n"
  else if c = '\r' then "\\r"
  else if c = '\t' then "\\t"
  else if c = '<' then "\\u003c"
  else if c = '>' then "\\u003e"
  else if c = '&' then "\\u0026"
  else if c.toNat < 32 then
    "\\u00" ++ String.singleton (Nat.digitChar (c.toNat / 16)) ++
      String.singleton (Nat.digitChar (c.toNat % 16))
  else String.singleton c

/-- Go JSON string marshalling: quoted, characters escaped. -/
def jsonMarshalString (s : String) : String :=
  "\"" ++ String.join (s.toList.map jsonEscapeChar) ++ "\""

/-- Insert a rendered field keeping the list sorted by key (Go marshals map
keys in increasing order; sorting the rendered `key:value` pieces by key is
the same as sorting the fields first, since only keys are compared). -/
def insertPieceSorted (k piece : String) : List (String × String) → List (String × String)
  | [] => [(k, piece)]
  | (k0, p0) :: rest =>
    if k < k0 then (k, piece) :: (k0, p0) :: rest
    else (k0, p0) :: insertPieceSorted k piece rest

/-- Insertion sort of rendered object fields by key. -/
def sortPieces : List (String × String) → List (String × String)
  | [] => []
  | (k, p) :: rest => insertPieceSorted k p (sortPieces rest)

/-- Comma-join a list of strings. -/
def joinComma : List String → String
  | [] => ""
  | [x] => x
  | x :: y :: rest => x ++ "," ++ joinComma (y :: rest)

mutual

/-- Model of Go `json.Marshal` on decoded `interface{}` values. -/
def jsonMarshal : JValue → String
  | JValue.null => "null"
  | JValue.bool true => "true"
  | JValue.bool false => "false"
  | JValue.num lit => lit
  | JValue.str s => jsonMarshalString s
  | JValue.arr xs => "[" ++ joinComma (jsonMarshalList xs) ++ "]"
  | JValue.obj fs =>
    String.singleton lbrace ++
      joinComma ((sortPieces (jsonMarshalFieldPieces fs)).map Prod.snd) ++
      String.singleton rbrace

/-- Marshalled array elements, in order. -/
def jsonMarshalList : List JValue → List String
  | [] => []
  | x :: rest => jsonMarshal x :: jsonMarshalList rest

/-- Rendered `key:value` pieces of an object, paired with their keys for
sorting. -/
def jsonMarshalFieldPieces : List (String × JValue) → List (String × String)
  | [] => []
  | (k, v) :: rest =>
    (k, jsonMarshalString k ++ ":" ++ jsonMarshal v) :: jsonMarshalFieldPieces rest

end

/-- JSON insignificant whitespace skipper. -/
def jsonSkipWs : List Char → List Char
  | c :: rest =>
    if c = ' ' ∨ c = '\t' ∨ c = '\n' ∨ c = '\r' then jsonSkipWs rest
    else c :: rest
  | [] => []

/-- Hex digit value, if `c` is a hex digit. -/
def hexDigitVal (c : Char) : Option Nat :=
  if '0' ≤ c ∧ c ≤ '9' then some (c.toNat - '0'.toNat)
  else if 'a' ≤ c ∧ c ≤ 'f' then some (c.toNat - 'a'.toNat + 10)
  else if 'A' ≤ c ∧ c ≤ 'F' then some (c.toNat - 'A'.toNat + 10)
  else none

/-- Single-character escape shorthands of JSON strings. -/
def escChar (e : Char) : Option Char :=
  if e = '"' then some '"'
  else if e = '\\' then some '\\'
  else if e = '/' then some '/'
  else if e = 'b' then some (Char.ofNat 8)
  else if e = 'f' then some (Char.ofNat 12)
  else if e = 'n' then some '\n'
  else if e = 'r' then some '\r'
  else if e = 't' then some '\t'
  else none

/-- Parse the body of a JSON string literal (opening quote consumed),
returning the decoded text and the remaining input. -/
def parseJsonStringBody : List Char → Option (String × List Char)
  | [] => none
  | c :: rest =>
    if c = '"' then some ("", rest)
    else if c = '\\' then
      match rest with
      | 'u' :: h1 :: h2 :: h3 :: h4 :: rest3 =>
        match hexDigitVal h1, hexDigitVal h2, hexDigitVal h3, hexDigitVal h4 with
        | some a, some b, some c1, some d =>
          match parseJsonStringBody rest3 with
          | some (s, rem) =>
            some (String.singleton (Char.ofNat (((a * 16 + b) * 16 + c1) * 16 + d)) ++ s, rem)
          | none => none
        | _, _, _, _ => none
      | e :: rest2 =>
        match escChar e with
        | some ch =>
          match parseJsonStringBody rest2 with
          | some (s, rem) => some (String.singleton ch ++ s, rem)
          | none => none
        | none => none
      | [] => none
    else if c.toNat < 32 then none
    else
      match parseJsonStringBody rest with
      | some (s, rem) => some (String.singleton c ++ s, rem)
      | none => none

/-- Take a maximal run of decimal digits. -/
def takeDigits : List Char → (List Char × List Char)
  | [] => ([], [])
  | c :: rest =>
    if '0' ≤ c ∧ c ≤ '9' then
      let (ds, rem) := takeDigits rest
      (c :: ds, rem)
    else ([], c :: rest)

/-- Parse a JSON number literal, returning its source text (the model keeps
the literal, cf. `json.Number`). -/
def parseJsonNumber (cs : List Char) : Option (String × List Char) :=
  let (sign, cs1) :=
    match cs with
    | '-' :: rest => ("-", rest)
    | _ => ("", cs)
  match cs1 with
  | [] => none
  | c :: _ =>
    if ¬('0' ≤ c ∧ c ≤ '9') then none
    else
      let (intDs, cs2) := takeDigits cs1
      if intDs.length > 1 ∧ c = '0' then none
      else
        let (fracPart, cs3) :=
          match cs2 with
          | '.' :: rest =>
            let (ds, rem) := takeDigits rest
            if ds = [] then ([], '.' :: rest) else ('.' :: ds, rem)
          | _ => ([], cs2)
        if cs3 ≠ cs2 ∨ fracPart ≠ [] then
          parseJsonNumberExp (sign ++ String.mk intDs ++ String.mk fracPart) cs3
        else parseJsonNumberExp (sign ++ String.mk intDs) cs2
where
  parseJsonNumberExp (lit : String) (cs : List Char) : Option (String × List Char) :=
    match cs with
    | e :: rest =>
      if e = 'e' ∨ e = 'E' then
        let (esign, rest2) :=
          match rest with
          | '+' :: r => ("+", r)
          | '-' :: r => ("-", r)
          | _ => ("", rest)
        let (ds, rem) := takeDigits rest2
        if ds = [] then none
        else some (lit ++ String.singleton e ++ esign ++ String.mk ds, rem)
      else some (lit, e :: rest)
    | [] => some (lit, [])

/-- Replace an existing key or append: Go object decoding is last-wins. -/
def objInsert (k : String) (v : JValue) : List (String × JValue) → List (String × JValue)
  | [] => [(k, v)]
  | (k0, v0) :: rest =>
    if k = k0 then (k, v) :: rest else (k0, v0) :: objInsert k v rest

mutual

/-- Fuel-bounded JSON value parser (model of `json.Unmarshal` into
`interface{}`); leading whitespace must already be skipped. -/
def parseJsonValue : Nat → List Char → Option (JValue × List Char)
  | 0, _ => none
  | _ + 1, [] => none
  | fuel + 1, c :: rest =>
    if c = 'n' then
      match rest with
      | 'u' :: 'l' :: 'l' :: rem => some (JValue.null, rem)
      | _ => none
    else if c = 't' then
      match rest with
      | 'r' :: 'u' :: 'e' :: rem => some (JValue.bool true, rem)
      | _ => none
    else if c = 'f' then
      match rest with
      | 'a' :: 'l' :: 's' :: 'e' :: rem => some (JValue.bool false, rem)
      | _ => none
    else if c = '"' then
      match parseJsonStringBody rest with
      | some (s, rem) => some (JValue.str s, rem)
      | none => none
    else if c = '[' then
      match jsonSkipWs rest with
      | ']' :: rem => some (JValue.arr [], rem)
      | other =>
        match parseJsonArrayItems fuel other with
        | some (xs, rem) => some (JValue.arr xs, rem)
        | none => none
    else if c = lbrace then
      match jsonSkipWs rest with
      | d :: rem =>
        if d = rbrace then some (JValue.obj [], rem)
        else
          match parseJsonObjectItems fuel (d :: rem) [] with
          | some (fs, rem2) => some (JValue.obj fs, rem2)
          | none => none
      | [] => none
    else if c = '-' ∨ ('0' ≤ c ∧ c ≤ '9') then
      match parseJsonNumber (c :: rest) with
      | some (lit, rem) => some (JValue.num lit, rem)
      | none => none
    else none

/-- Comma-separated array items up to the closing bracket. -/
def parseJsonArrayItems : Nat → List Char → Option (List JValue × List Char)
  | 0, _ => none
  | fuel + 1, cs =>
    match parseJsonValue fuel (jsonSkipWs cs) with
    | some (v, rem) =>
      match jsonSkipWs rem with
      | ']' :: rem2 => some ([v], rem2)
      | ',' :: rem2 =>
        match parseJsonArrayItems fuel rem2 with
        | some (vs, rem3) => some (v :: vs, rem3)
        | none => none
      | _ => none
    | none => none

/-- Comma-separated `"key": value` pairs up to the closing brace;
duplicate keys are last-wins as in Go. -/
def parseJsonObjectItems : Nat → List Char → List (String × JValue) →
    Option (List (String × JValue) × List Char)
  | 0, _, _ => none
  | fuel + 1, cs, acc =>
    match jsonSkipWs cs with
    | q :: rest =>
      if q = '"' then
        match parseJsonStringBody rest with
        | some (k, rem) =>
          match jsonSkipWs rem with
          | ':' :: rem2 =>
            match parseJsonValue fuel (jsonSkipWs rem2) with
            | some (v, rem3) =>
              match jsonSkipWs rem3 with
              | ',' :: rem4 => parseJsonObjectItems fuel rem4 (objInsert k v acc)
              | d :: rem4 =>
                if d = rbrace then some (objInsert k v acc, rem4) else none
              | [] => none
            | none => none
          | _ => none
        | none => none
      else none
    | [] => none

end

/-- Model of Go `json.Unmarshal(data, &v)` for `v interface{}`: one JSON
value surrounded by optional whitespace, nothing else. -/
def jsonParse (s : String) : Option JValue :=
  match parseJsonValue (2 * s.length + 8) (jsonSkipWs s.toList) with
  | some (v, rem) => if jsonSkipWs rem = [] then some v else none
  | none => none

/-- Whitespace test of Go `unicode.IsSpace` restricted to the Latin-1 range
(the wider Unicode space classes are not exercised by this code path). -/
def isSpaceChar (c : Char) : Bool :=
  c = ' ' ∨ (9 ≤ c.toNat ∧ c.toNat ≤ 13) ∨ c.toNat = 133 ∨ c.toNat = 160

/-- Drop leading space characters. -/
def dropLeadingSpace : List Char → List Char
  | [] => []
  | c :: rest => if isSpaceChar c then dropLeadingSpace rest else c :: rest

/-- Model of Go `strings.TrimSpace`. -/
def trimSpace (s : String) : String :=
  String.mk (List.reverse (dropLeadingSpace (List.reverse (dropLeadingSpace s.toList))))

/-- Go `float64` request knob (temperature, top_p): the code never computes
with these values, only copies them, so they are modelled by their
uninterpreted 64-bit pattern. -/
structure GoFloat where
  bits : Nat
deriving Repr, DecidableEq

/-- Model of `generateToolCallID` / `service.GenerateToolCallID`:
`"call_" + <unique token>`; the `time.Now().UnixNano()` token source is
modelled by a counter that yields fresh strings. -/
def genToolCallID (n : Nat) : String :=
  "call_" ++ toString n

/-- Model of `mapStopReason` (service/converter.go `MapStopReason` and the
identical monolithic `mapStopReason`). -/
def mapStopReason (finish : String) (hasToolCalls : Bool) : String :=
  if finish = "length" then "max_tokens"
  else if finish = "stop" then "end_turn"
  else if finish = "tool_calls" ∨ finish = "function_call" then "tool_use"
  else if hasToolCalls then "tool_use"
  else "end_turn"

/-- Model of `parseToolCallArgs` / `ParseToolCallArgs`. -/
def parseToolCallArgs (args : String) : JValue :=
  if trimSpace args = "" then JValue.obj []
  else
    match jsonParse args with
    | some payload => payload
    | none => JValue.obj [("arguments", JValue.str args)]

/-- Model of `stringifyToolResult` / `StringifyToolResult`; the
`json.Marshal` error branch is unreachable for decoded JSON values. -/
def stringifyToolResult (content : JValue) : String :=
  match content with
  | JValue.null => ""
  | JValue.str text => text
  | v => jsonMarshal v

/-- Items loop of `extractTextParts` on an `[]interface{}` value. -/
def extractTextPartsItems : List JValue → List String
  | [] => []
  | JValue.str text :: rest =>
    (if trimSpace text ≠ "" then [text] else []) ++ extractTextPartsItems rest
  | JValue.obj block :: rest =>
    (if JValue.lookupStr block "type" = "text" then
      match JValue.lookupStrOk block "text" with
      | some text => if trimSpace text ≠ "" then [text] else []
      | none => []
    else
      match JValue.lookupStrOk block "text" with
      | some text => if trimSpace text ≠ "" then [text] else []
      | none => []) ++ extractTextPartsItems rest
  | _ :: rest => extractTextPartsItems rest

/-- Model of `extractTextParts` / `ExtractTextParts`. In the map case Go
checks the `"text"` field twice, once guarded by `type == "text"` and once
unguarded; both read the same field, so the unguarded check decides. -/
def extractTextParts : JValue → List String
  | JValue.null => []
  | JValue.str t => if trimSpace t = "" then [] else [t]
  | JValue.arr items => extractTextPartsItems items
  | JValue.obj t =>
    (match JValue.lookupStrOk t "text" with
    | some text => if trimSpace text ≠ "" then [text] else []
    | none => [])
  | _ => []

/-- Model of `flattenAnthropicText` / `FlattenAnthropicText`. -/
def flattenAnthropicText (v : JValue) : String :=
  String.intercalate "\n" (extractTextParts v)

/-- OpenAI-side flat `tool_calls` entry as built by `parseAnthropicBlock`
(the constant `"type": "function"` field is implicit). -/
structure FlatToolCall where
  id : String
  name : String
  arguments : String
deriving Repr, DecidableEq

/-- One flat (OpenAI-shaped) message as built by the request translator:
a plain `role`/`content` map, one carrying a non-empty `tool_calls` array,
or a `"tool"`-role map with `tool_call_id`. -/
inductive FlatMessage where
  | plain (role : String) (content : String)
  | withCalls (role : String) (content : String) (toolCalls : List FlatToolCall)
  | tool (toolCallId : String) (content : String)
deriving Repr, DecidableEq

/-- Model of `parseAnthropicBlock` (identical in service/converter.go and
the monolith): returns the text parts, tool calls and tool-result messages
this block contributes, threading the synthetic-id counter. -/
def parseAnthropicBlock (block : List (String × JValue)) (ctr : Nat) :
    List String × List FlatToolCall × List FlatMessage × Nat :=
  let typeVal := JValue.lookupStr block "type"
  if typeVal = "text" then
    let text := JValue.lookupStr block "text"
    ((if trimSpace text ≠ "" then [text] else []), [], [], ctr)
  else if typeVal = "tool_use" then
    let name := JValue.lookupStr block "name"
    let id0 := JValue.lookupStr block "id"
    let idc : String × Nat := if trimSpace id0 = "" then (genToolCallID ctr, ctr + 1) else (id0, ctr)
    let args : String :=
      match JValue.lookupField block "input" with
      | none => "\x7b\x7d"
      | some JValue.null => "\x7b\x7d"
      | some v => jsonMarshal v
    ([], [{ id := idc.1, name := name, arguments := args }], [], idc.2)
  else if typeVal = "tool_result" then
    ([], [],
      [FlatMessage.tool (JValue.lookupStr block "tool_use_id")
        (stringifyToolResult (JValue.lookupVal block "content"))], ctr)
  else
    let text := JValue.lookupStr block "text"
    ((if trimSpace text ≠ "" then [text] else []), [], [], ctr)

/-- Items loop of `parseAnthropicContent` on an `[]interface{}` content:
non-map items are skipped. -/
def parseAnthropicItems : List JValue → Nat →
    List String × List FlatToolCall × List FlatMessage × Nat
  | [], ctr => ([], [], [], ctr)
  | JValue.obj block :: rest, ctr =>
    let r1 := parseAnthropicBlock block ctr
    let r2 := parseAnthropicItems rest r1.2.2.2
    (r1.1 ++ r2.1, r1.2.1 ++ r2.2.1, r1.2.2.1 ++ r2.2.2.1, r2.2.2.2)
  | _ :: rest, ctr => parseAnthropicItems rest ctr

/-- Model of `parseAnthropicContent` / `ParseAnthropicContent`. -/
def parseAnthropicContent (content : JValue) (ctr : Nat) :
    List String × List FlatToolCall × List FlatMessage × Nat :=
  match content with
  | JValue.str v => ((if trimSpace v ≠ "" then [v] else []), [], [], ctr)
  | JValue.arr items => parseAnthropicItems items ctr
  | JValue.obj v => parseAnthropicBlock v ctr
  | JValue.null => ([], [], [], ctr)
  | v =>
    let fallback := flattenAnthropicText v
    ((if trimSpace fallback ≠ "" then [fallback] else []), [], [], ctr)

/-- Typed-block (Anthropic) message: role plus dynamic content. -/
structure AnthropicMessage where
  role : String
  content : JValue

/-- Model of `convertAnthropicMessage` / `ConvertAnthropicMessage` (the Go
error return is always nil). -/
def convertAnthropicMessage (msg : AnthropicMessage) (ctr : Nat) :
    List FlatMessage × Nat :=
  let parsed := parseAnthropicContent msg.content ctr
  let textParts := parsed.1
  let toolCalls := parsed.2.1
  let toolResults := parsed.2.2.1
  let messages : List FlatMessage :=
    if textParts.length > 0 ∨ toolCalls.length > 0 then
      [if toolCalls.length > 0 then
        FlatMessage.withCalls msg.role (String.intercalate "\n" textParts) toolCalls
      else
        FlatMessage.plain msg.role (String.intercalate "\n" textParts)]
    else if toolResults.length = 0 then
      [FlatMessage.plain msg.role ""]
    else []
  (messages ++ toolResults, parsed.2.2.2)

/-- Messages loop of `convertAnthropicToOpenAIMessages`. -/
def convertMessagesLoop : List AnthropicMessage → Nat → List FlatMessage × Nat
  | [], ctr => ([], ctr)
  | msg :: rest, ctr =>
    let r1 := convertAnthropicMessage msg ctr
    let r2 := convertMessagesLoop rest r1.2
    (r1.1 ++ r2.1, r2.2)

/-- Model of `convertAnthropicToOpenAIMessages` /
`ConvertAnthropicToOpenAIMessages` (never errors). -/
def convertAnthropicToOpenAIMessages (system : JValue)
    (messages : List AnthropicMessage) (ctr : Nat) : List FlatMessage × Nat :=
  let sysText := flattenAnthropicText system
  let head : List FlatMessage :=
    if trimSpace sysText ≠ "" then [FlatMessage.plain "system" sysText] else []
  let rest := convertMessagesLoop messages ctr
  (head ++ rest.1, rest.2)

/-- OpenAI flat tool schema `function` object as built by
`convertAnthropicTools`. -/
structure OpenAIToolFunction where
  name : String
  description : Option String
  parameters : Option JValue

/-- OpenAI flat tool schema entry (the constant `"type": "function"` field
is implicit). -/
structure OpenAITool where
  function : OpenAIToolFunction

/-- Typed-block tool definition (`AnthropicToolDefinition`). -/
structure AnthropicToolDefinition where
  name : String
  description : String
  inputSchema : JValue
  type : String

/-- Model of `convertAnthropicTools` / `ConvertAnthropicTools`; Go's two
nil returns (empty input, all entries filtered) are both the empty list. -/
def convertAnthropicTools : List AnthropicToolDefinition → List OpenAITool
  | [] => []
  | tool :: rest =>
    let name := trimSpace tool.name
    if name = "" then convertAnthropicTools rest
    else
      { function :=
        { name := name
          description := if trimSpace tool.description ≠ "" then some tool.description else none
          parameters := match tool.inputSchema with
            | JValue.null => none
            | v => some v } } :: convertAnthropicTools rest

/-- Model of `convertAnthropicToolChoice` / `ConvertAnthropicToolChoice`. -/
def convertAnthropicToolChoice (choice : JValue) : JValue :=
  match choice with
  | JValue.str v =>
    if v = "any" then JValue.str "required"
    else if v = "auto" then JValue.str "auto"
    else JValue.str v
  | JValue.obj v =>
    -- Go compares the interface value `v["type"]` with the string "tool"
    let isTool : Bool :=
      match JValue.lookupField v "type" with
      | some (JValue.str t) => t = "tool"
      | _ => false
    if isTool then
      match JValue.lookupStrOk v "name" with
      | some name =>
        if trimSpace name ≠ "" then
          JValue.obj [("type", JValue.str "function"),
            ("function", JValue.obj [("name", JValue.str name)])]
        else JValue.obj v
      | none => JValue.obj v
    else JValue.obj v
  | v => v

/-- OpenAI flat `function_call` / tool-call function payload. -/
structure OpenAIFunctionCall where
  name : String
  arguments : String
deriving Repr, DecidableEq

/-- OpenAI flat `tool_calls` entry. -/
structure OpenAIToolCall where
  id : String
  type : String
  function : OpenAIFunctionCall
deriving Repr, DecidableEq

/-- OpenAI flat response message. -/
structure OpenAIMessage where
  role : String
  content : JValue
  toolCalls : List OpenAIToolCall
  functionCall : Option OpenAIFunctionCall

/-- Items loop of `openAIContentToString` on an `[]interface{}` content. -/
def openAIContentTextItems : List JValue → List String
  | [] => []
  | JValue.obj block :: rest =>
    (if JValue.lookupStr block "type" = "text" then
      match JValue.lookupStrOk block "text" with
      | some text => if trimSpace text ≠ "" then [text] else []
      | none => []
    else []) ++ openAIContentTextItems rest
  | _ :: rest => openAIContentTextItems rest

/-- Model of `openAIContentToString` / `OpenAIContentToString`. -/
def openAIContentToString (content : JValue) : String :=
  match content with
  | JValue.null => ""
  | JValue.str v => v
  | JValue.arr items => String.intercalate "\n" (openAIContentTextItems items)
  | _ => ""

/-- Typed-block content block (`AnthropicContentBlock`); absent fields hold
Go zero values (`""` / nil). -/
structure AnthropicContentBlock where
  type : String
  text : String
  id : String
  name : String
  input : JValue

/-- Tool-calls loop of `buildAnthropicContentBlocks`: skips calls with
blank name and blank arguments; trims name and id; a blank id is replaced
by a synthetic one. -/
def buildToolUseBlocks : List OpenAIToolCall → Nat → List AnthropicContentBlock × Nat
  | [], ctr => ([], ctr)
  | call :: rest, ctr =>
    let name := trimSpace call.function.name
    if name = "" ∧ trimSpace call.function.arguments = "" then
      buildToolUseBlocks rest ctr
    else
      let idc : String × Nat :=
        if trimSpace call.id = "" then (genToolCallID ctr, ctr + 1) else (trimSpace call.id, ctr)
      let block : AnthropicContentBlock :=
        { type := "tool_use", text := "", id := idc.1, name := name
          input := parseToolCallArgs call.function.arguments }
      let r := buildToolUseBlocks rest idc.2
      (block :: r.1, r.2)

/-- Model of `buildAnthropicContentBlocks` / `BuildAnthropicContentBlocks`. -/
def buildAnthropicContentBlocks (message : Option OpenAIMessage) (ctr : Nat) :
    List AnthropicContentBlock × Nat :=
  match message with
  | none => ([{ type := "text", text := "", id := "", name := "", input := JValue.null }], ctr)
  | some message =>
    let text := openAIContentToString message.content
    let textBlocks : List AnthropicContentBlock :=
      if trimSpace text ≠ "" then
        [{ type := "text", text := text, id := "", name := "", input := JValue.null }]
      else []
    let callsResult := buildToolUseBlocks message.toolCalls ctr
    let fnResult : List AnthropicContentBlock × Nat :=
      match message.functionCall with
      | none => ([], callsResult.2)
      | some fc =>
        let name := trimSpace fc.name
        if name ≠ "" ∨ trimSpace fc.arguments ≠ "" then
          ([{ type := "tool_use", text := "", id := genToolCallID callsResult.2, name := name
              input := parseToolCallArgs fc.arguments }], callsResult.2 + 1)
        else ([], callsResult.2)
    let blocks := textBlocks ++ callsResult.1 ++ fnResult.1
    (if blocks.isEmpty then
      [{ type := "text", text := "", id := "", name := "", input := JValue.null }]
    else blocks, fnResult.2)

/-- OpenAI flat response usage block. -/
structure OpenAIUsage where
  promptTokens : Int
  completionTokens : Int
  totalTokens : Int
deriving Repr, DecidableEq

/-- One OpenAI flat response choice. -/
structure OpenAIChoice where
  index : Int
  message : Option OpenAIMessage
  finishReason : String

/-- OpenAI flat (non-streaming) response. -/
structure OpenAIResponse where
  id : String
  object : String
  created : Int
  model : String
  choices : List OpenAIChoice
  usage : OpenAIUsage

/-- Typed-block response usage block. -/
structure AnthropicUsage where
  inputTokens : Int
  outputTokens : Int
deriving Repr, DecidableEq

/-- Typed-block (Anthropic) response. -/
structure AnthropicResponse where
  id : String
  type : String
  role : String
  model : String
  content : List AnthropicContentBlock
  stopReason : String
  stopSequence : String
  usage : AnthropicUsage

/-- Model of the response-translation phase of `handleAnthropic` /
`HandleAnthropic` on a decoded 2xx upstream response: fails (HTTP 502,
"no choices in response") iff there is no choice or the first choice has no
message; otherwise builds the typed-block response. -/
def translateOpenAIResponse (reqModel : String) (resp : OpenAIResponse) (ctr : Nat) :
    Except String (AnthropicResponse × Nat) :=
  match resp.choices with
  | [] => Except.error "no choices in response"
  | choice :: _ =>
    match choice.message with
    | none => Except.error "no choices in response"
    | some message =>
      let built := buildAnthropicContentBlocks (some message) ctr
      let model := if resp.model = "" then reqModel else resp.model
      let hasToolCalls : Bool := message.toolCalls.length > 0 ∨ message.functionCall.isSome
      Except.ok
        ({ id := resp.id, type := "message", role := "assistant", model := model
           content := built.1
           stopReason := mapStopReason choice.finishReason hasToolCalls
           stopSequence := ""
           usage :=
             { inputTokens := resp.usage.promptTokens
               outputTokens := resp.usage.completionTokens } }, built.2)

/-- Typed-block (Anthropic) request; pointer-typed Go fields are `Option`,
`interface{}` fields are `JValue` (absent decodes to nil / `JValue.null`). -/
structure AnthropicRequest where
  model : String
  messages : List AnthropicMessage
  system : JValue
  maxTokens : Int
  temperature : Option GoFloat
  topP : Option GoFloat
  topK : Option Int
  stream : Bool
  tools : List AnthropicToolDefinition
  toolChoice : JValue
  stopSequences : List String

/-- Canonical OpenAI flat chat request as assembled by the handlers; a
field is `none` when the corresponding JSON key is not set. -/
structure OpenAIChatRequest where
  model : String
  messages : List FlatMessage
  stream : Bool
  streamOptionsIncludeUsage : Bool
  maxTokens : Option Int
  temperature : Option GoFloat
  topP : Option GoFloat
  topK : Option Int
  stop : Option (List String)
  tools : Option (List OpenAITool)
  toolChoice : Option JValue

/-- Model of the request-assembly phase of the monolithic `handleAnthropic`
(non-streaming): part_001 lines 218-243. -/
def buildOpenAIChatRequest (req : AnthropicRequest) (ctr : Nat) :
    OpenAIChatRequest × Nat :=
  let msgs := convertAnthropicToOpenAIMessages req.system req.messages ctr
  let tools := convertAnthropicTools req.tools
  ({ model := req.model
     messages := msgs.1
     stream := false
     streamOptionsIncludeUsage := false
     maxTokens := if req.maxTokens > 0 then some req.maxTokens else none
     temperature := req.temperature
     topP := req.topP
     topK := req.topK
     stop := if req.stopSequences.length > 0 then some req.stopSequences else none
     tools := if tools.length > 0 then some tools else none
     toolChoice :=
       match req.toolChoice with
       | JValue.null => none
       | v => some (convertAnthropicToolChoice v) }, msgs.2)

/-- Model of the request-assembly phase of the Gin `HandleAnthropic`
(non-streaming): anthropic.go lines 719-741. Identical to the monolithic
builder except that this handler has no `top_k` branch at all. -/
def ginBuildOpenAIChatRequest (req : AnthropicRequest) (ctr : Nat) :
    OpenAIChatRequest × Nat :=
  let msgs := convertAnthropicToOpenAIMessages req.system req.messages ctr
  let tools := convertAnthropicTools req.tools
  ({ model := req.model
     messages := msgs.1
     stream := false
     streamOptionsIncludeUsage := false
     maxTokens := if req.maxTokens > 0 then some req.maxTokens else none
     temperature := req.temperature
     topP := req.topP
     topK := none
     stop := if req.stopSequences.length > 0 then some req.stopSequences else none
     tools := if tools.length > 0 then some tools else none
     toolChoice :=
       match req.toolChoice with
       | JValue.null => none
       | v => some (convertAnthropicToolChoice v) }, msgs.2)

/-- Model of the 2xx branch of the Gin `handleAnthropicStream`
(anthropic.go lines 840-849): after setting SSE headers it runs
`io.Copy(c.Writer, resp.Body)`, forwarding the upstream byte stream to the
caller unchanged and performing no reframing into typed-block events. -/
def ginStreamPassthrough (upstreamBody : List Char) : List Char :=
  upstreamBody

/-- One `tool_calls` fragment of an upstream stream delta
(`OpenAIStreamResponse.Choices[].Delta.ToolCalls[]`). -/
structure StreamToolCallDelta where
  index : Int
  id : String
  type : String
  function : OpenAIFunctionCall
deriving Repr, DecidableEq

/-- Upstream stream delta (`Choices[].Delta`). -/
structure StreamDelta where
  role : String
  content : String
  toolCalls : List StreamToolCallDelta
deriving Repr, DecidableEq

/-- Upstream stream choice (`OpenAIStreamResponse.Choices[]`). -/
structure StreamChoice where
  index : Int
  delta : StreamDelta
  finishReason : Option String
deriving Repr, DecidableEq

/-- Upstream stream chunk (`OpenAIStreamResponse`). -/
structure OpenAIStreamChunk where
  id : String
  object : String
  created : Int
  model : String
  usage : Option OpenAIUsage
  choices : List StreamChoice
deriving Repr, DecidableEq

/-- One decoded SSE item fed to the reframer loop: a parsed chunk, the
literal `[DONE]` marker, or a chunk whose JSON failed to decode (skipped,
the StreamDecodeError case). -/
inductive StreamItem where
  | chunk (c : OpenAIStreamChunk)
  | done
  | malformed
deriving Repr, DecidableEq

/-- Per tool-call record of the reframer state (`anthropicToolBlock`);
`arguments` is the accumulated `strings.Builder` content. -/
structure AnthropicToolBlock where
  index : Int
  id : String
  name : String
  arguments : String
  started : Bool
  finished : Bool
  openAIIndex : Int
deriving Repr, DecidableEq

/-- Reframer state (`anthropicStreamState`); `toolBlocks` keeps the Go map
as an association list in insertion order; `lastFinishReason` and
`hasToolCalls` are the loop-local variables of `streamOpenAIToAnthropic`;
`idCtr` is the synthetic-id supply. -/
structure AnthropicStreamState where
  messageID : String
  model : String
  started : Bool
  textBlockIndex : Int
  nextBlockIndex : Int
  textBlockStarted : Bool
  toolBlocks : List (Int × AnthropicToolBlock)
  promptTokens : Int
  completionTokens : Int
  lastFinishReason : Option String
  hasToolCalls : Bool
  idCtr : Nat
deriving Repr, DecidableEq

/-- Initial reframer state (`textBlockIndex: -1, nextBlockIndex: 0`). -/
def initialStreamState : AnthropicStreamState :=
  { messageID := "", model := "", started := false, textBlockIndex := -1
    nextBlockIndex := 0, textBlockStarted := false, toolBlocks := []
    promptTokens := 0, completionTokens := 0, lastFinishReason := none
    hasToolCalls := false, idCtr := 0 }

/-- Typed-block stream event, one per `writeAnthropicEvent` call. -/
inductive AnthropicStreamEvent where
  | messageStart (id mdl : String)
  | contentBlockStartText (index : Int)
  | contentBlockStartTool (index : Int) (id name : String)
  | contentBlockDeltaText (index : Int) (text : String)
  | inputJsonDelta (index : Int) (partJson : String)
  | contentBlockStop (index : Int)
  | messageDelta (stopReason : String) (outputTokens : Int) (inputTokens : Option Int)
  | messageStop
deriving Repr, DecidableEq

/-- Lookup in the tool-block map (`state.toolBlocks[call.Index]`). -/
def lookupToolBlock : List (Int × AnthropicToolBlock) → Int → Option AnthropicToolBlock
  | [], _ => none
  | (k0, b) :: rest, k => if k = k0 then some b else lookupToolBlock rest k

/-- Update the tool-block map entry at key `k` (Go mutates the block the
map points at). -/
def updateToolBlock (k : Int) (b : AnthropicToolBlock) :
    List (Int × AnthropicToolBlock) → List (Int × AnthropicToolBlock)
  | [] => []
  | (k0, b0) :: rest =>
    if k = k0 then (k, b) :: rest else (k0, b0) :: updateToolBlock k b rest

/-- Incremental name/argument accumulation of one tool-call fragment into
its block record (part_001 lines 995-1000). -/
def applyNameArgs (block : AnthropicToolBlock) (call : StreamToolCallDelta) :
    AnthropicToolBlock :=
  let block :=
    if call.function.name ≠ "" then { block with name := call.function.name } else block
  if call.function.arguments ≠ "" then
    { block with arguments := block.arguments ++ call.function.arguments }
  else block

/-- The `if !block.started` tail of the tool-call fragment handling
(part_001 lines 1001-1013): emit `content_block_start` once and store the
updated block back into the map. -/
def finishToolCallDelta (st : AnthropicStreamState) (key : Int)
    (block : AnthropicToolBlock) : AnthropicStreamState × List AnthropicStreamEvent :=
  if block.started then
    ({ st with toolBlocks := updateToolBlock key block st.toolBlocks }, [])
  else
    ({ st with toolBlocks := updateToolBlock key { block with started := true } st.toolBlocks },
      [AnthropicStreamEvent.contentBlockStartTool block.index block.id block.name])

/-- Model of the per-fragment tool-call handling of
`streamOpenAIToAnthropic` (part_001 lines 979-1014): create the block
record on first appearance of an upstream position (assigning the next
block index and a synthetic id if the fragment has none), accumulate
name/arguments, and emit `content_block_start` exactly once. -/
def processToolCallDelta (st : AnthropicStreamState) (call : StreamToolCallDelta) :
    AnthropicStreamState × List AnthropicStreamEvent :=
  let st := { st with hasToolCalls := true }
  match lookupToolBlock st.toolBlocks call.index with
  | some b => finishToolCallDelta st call.index (applyNameArgs b call)
  | none =>
    let idc : String × Nat :=
      if call.id = "" then (genToolCallID st.idCtr, st.idCtr + 1) else (call.id, st.idCtr)
    let b : AnthropicToolBlock :=
      { index := st.nextBlockIndex, id := idc.1, name := call.function.name
        arguments := "", started := false, finished := false, openAIIndex := call.index }
    let st :=
      { st with
          toolBlocks := st.toolBlocks ++ [(call.index, b)]
          nextBlockIndex := st.nextBlockIndex + 1
          idCtr := idc.2 }
    finishToolCallDelta st call.index (applyNameArgs b call)

/-- Fold of `processToolCallDelta` over the fragments of one delta. -/
def processToolCallList (st : AnthropicStreamState) :
    List StreamToolCallDelta → AnthropicStreamState × List AnthropicStreamEvent
  | [] => (st, [])
  | call :: rest =>
    let r1 := processToolCallDelta st call
    let r2 := processToolCallList r1.1 rest
    (r2.1, r1.2 ++ r2.2)

/-- Finish-reason bookkeeping of one choice (part_001 lines 950-952):
the latest finish reason wins. -/
def applyFinishReason (st : AnthropicStreamState) (choice : StreamChoice) :
    AnthropicStreamState :=
  match choice.finishReason with
  | some r => { st with lastFinishReason := some r }
  | none => st

/-- Text-delta handling of one choice (part_001 lines 954-977): open the
text block on the first non-empty delta, then emit the fragment. -/
def processTextDelta (st : AnthropicStreamState) (content : String) :
    AnthropicStreamState × List AnthropicStreamEvent :=
  if content ≠ "" then
    let opened : AnthropicStreamState × List AnthropicStreamEvent :=
      if st.textBlockStarted then (st, [])
      else
        ({ st with
            textBlockIndex := st.nextBlockIndex
            nextBlockIndex := st.nextBlockIndex + 1
            textBlockStarted := true },
          [AnthropicStreamEvent.contentBlockStartText st.nextBlockIndex])
    (opened.1, opened.2 ++
      [AnthropicStreamEvent.contentBlockDeltaText opened.1.textBlockIndex content])
  else (st, [])

/-- Model of the per-choice handling of `streamOpenAIToAnthropic`
(part_001 lines 949-1015): remember the latest finish reason, handle the
text delta, then process the tool-call fragments. -/
def processChoice (st : AnthropicStreamState) (choice : StreamChoice) :
    AnthropicStreamState × List AnthropicStreamEvent :=
  let st := applyFinishReason st choice
  let textStep := processTextDelta st choice.delta.content
  let toolStep := processToolCallList textStep.1 choice.delta.toolCalls
  (toolStep.1, textStep.2 ++ toolStep.2)

/-- Fold of `processChoice` over the choices of one chunk. -/
def processChoiceList (st : AnthropicStreamState) :
    List StreamChoice → AnthropicStreamState × List AnthropicStreamEvent
  | [] => (st, [])
  | choice :: rest =>
    let r1 := processChoice st choice
    let r2 := processChoiceList r1.1 rest
    (r2.1, r1.2 ++ r2.2)

/-- First-chunk handling of `streamOpenAIToAnthropic` (part_001 lines
915-942): capture id/model (synthesizing an id, falling back to the
request model) and emit `message_start` once. -/
def applyMessageStart (fallbackModel : String) (st : AnthropicStreamState)
    (chunk : OpenAIStreamChunk) : AnthropicStreamState × List AnthropicStreamEvent :=
  if st.started then (st, [])
  else
    let idc : String × Nat :=
      if chunk.id = "" then ("msg_" ++ toString st.idCtr, st.idCtr + 1)
      else (chunk.id, st.idCtr)
    let mdl := if chunk.model = "" then fallbackModel else chunk.model
    ({ st with messageID := idc.1, model := mdl, started := true, idCtr := idc.2 },
      [AnthropicStreamEvent.messageStart idc.1 mdl])

/-- Usage bookkeeping of one chunk (part_001 lines 944-947): the last
reported value wins. -/
def applyUsage (st : AnthropicStreamState) (chunk : OpenAIStreamChunk) :
    AnthropicStreamState :=
  match chunk.usage with
  | some u => { st with promptTokens := u.promptTokens, completionTokens := u.completionTokens }
  | none => st

/-- Model of the per-chunk handling of `streamOpenAIToAnthropic` (part_001
lines 915-1015): `message_start` on the first chunk, usage bookkeeping,
then each choice in order. -/
def processChunk (fallbackModel : String) (st : AnthropicStreamState)
    (chunk : OpenAIStreamChunk) : AnthropicStreamState × List AnthropicStreamEvent :=
  let startStep := applyMessageStart fallbackModel st chunk
  let st2 := applyUsage startStep.1 chunk
  let choicesStep := processChoiceList st2 chunk.choices
  (choicesStep.1, startStep.2 ++ choicesStep.2)

/-- Closing emission for the tool blocks (part_001 lines 1027-1048): for
each started block, a final `input_json_delta` carrying the
whitespace-trimmed accumulated arguments when that trimmed text is
non-empty, then its `content_block_stop`. Go iterates the map in
unspecified order; the model uses insertion order. -/
def closeToolBlocks : List (Int × AnthropicToolBlock) → List AnthropicStreamEvent
  | [] => []
  | (_, b) :: rest =>
    (if b.started ∧ trimSpace b.arguments ≠ "" then
      [AnthropicStreamEvent.inputJsonDelta b.index (trimSpace b.arguments)]
    else []) ++
    (if b.started ∧ ¬b.finished then [AnthropicStreamEvent.contentBlockStop b.index] else []) ++
    closeToolBlocks rest

/-- Closing emission of `streamOpenAIToAnthropic` (part_001 lines
1021-1068): text-block stop if open, tool-block closes, `message_delta`
with the mapped stop reason and usage if a finish reason was seen (input
tokens only when positive), then `message_stop`. -/
def closeStreamEvents (st : AnthropicStreamState) : List AnthropicStreamEvent :=
  (if st.textBlockStarted then [AnthropicStreamEvent.contentBlockStop st.textBlockIndex] else []) ++
  closeToolBlocks st.toolBlocks ++
  (match st.lastFinishReason with
    | some r =>
      [AnthropicStreamEvent.messageDelta (mapStopReason r st.hasToolCalls)
        st.completionTokens
        (if st.promptTokens > 0 then some st.promptTokens else none)]
    | none => []) ++
  [AnthropicStreamEvent.messageStop]

/-- The reframer loop over decoded SSE items: `[DONE]` breaks to the
closing emission; a malformed chunk is skipped; end of input without
`[DONE]` makes `streamOpenAIToAnthropic` return `io.EOF` before the
closing emission, so nothing more is emitted. -/
def runStream (fallbackModel : String) (st : AnthropicStreamState) :
    List StreamItem → List AnthropicStreamEvent
  | [] => []
  | StreamItem.done :: _ => closeStreamEvents st
  | StreamItem.malformed :: rest => runStream fallbackModel st rest
  | StreamItem.chunk c :: rest =>
    let r := processChunk fallbackModel st c
    r.2 ++ runStream fallbackModel r.1 rest

/-- Model of `streamOpenAIToAnthropic` (part_001 lines 878-1071) as the
event sequence it writes for a given decoded item sequence. -/
def streamOpenAIToAnthropic (fallbackModel : String)
    (items : List StreamItem) : List AnthropicStreamEvent :=
  runStream fallbackModel initialStreamState items

/-- Index carried by a `content_block_start` event, if any. -/
def startIndexOf : AnthropicStreamEvent → Option Int
  | AnthropicStreamEvent.contentBlockStartText i => some i
  | AnthropicStreamEvent.contentBlockStartTool i _ _ => some i
  | _ => none

/-- Block indices assigned during a stream, in order of assignment: one
per `content_block_start` event. -/
def startIndices (evs : List AnthropicStreamEvent) : List Int :=
  evs.filterMap startIndexOf

/-- Every block record in the map has already emitted its
`content_block_start` (holds between fragments, since a created block is
started within the same fragment iteration). -/
def ToolBlocksStarted (l : List (Int × AnthropicToolBlock)) : Prop :=
  ∀ p ∈ l, (p.2).started = true

/-- The start indices of `evs` are strictly increasing and lie in
`[lo, hi)`. -/
def StartsBetween (lo hi : Int) (evs : List AnthropicStreamEvent) : Prop :=
  List.Pairwise (· < ·) (startIndices evs) ∧ ∀ i ∈ startIndices evs, lo ≤ i ∧ i < hi

/-- The start indices of `evs` are strictly increasing and at least `lo`. -/
def StartsFrom (lo : Int) (evs : List AnthropicStreamEvent) : Prop :=
  List.Pairwise (· < ·) (startIndices evs) ∧ ∀ i ∈ startIndices evs, lo ≤ i

/-- Stop-reason classification of the spec's data model. -/
inductive StopReason where
  | endTurn | maxTokens | toolUse | other
deriving Repr, DecidableEq

/-- Classification of a wire stop-reason string into the `StopReason`
enum of the spec's data model. -/
def classifyStopReason (s : String) : StopReason :=
  if s = "end_turn" then StopReason.endTurn
  else if s = "max_tokens" then StopReason.maxTokens
  else if s = "tool_use" then StopReason.toolUse
  else StopReason.other

/-- A decoded content item that is a JSON object whose `type` field is the
string `"tool_result"`. -/
def isToolResultObj (b : JValue) : Prop :=
  ∃ fields, b = JValue.obj fields ∧ JValue.lookupStr fields "type" = "tool_result"

/-- Flat `"tool"`-role message produced for one tool_result block. -/
def toolResultFlat (b : JValue) : FlatMessage :=
  match b with
  | JValue.obj fields =>
    FlatMessage.tool (JValue.lookupStr fields "tool_use_id")
      (stringifyToolResult (JValue.lookupVal fields "content"))
  | _ => FlatMessage.tool "" ""

/-- Decoded form of the upstream chunk
`(id:"x", model:"m", choices:[(delta:(content:"Hi"))])`. -/
def c2chunk1 : OpenAIStreamChunk :=
  { id := "x", object := "", created := 0, model := "m", usage := none
    choices := [{ index := 0
                  delta := { role := "", content := "Hi", toolCalls := [] }
                  finishReason := none }] }

/-- Decoded form of the upstream chunk
`(choices:[(delta:(content:" there"), finish_reason:"stop")])`. -/
def c2chunk2 : OpenAIStreamChunk :=
  { id := "", object := "", created := 0, model := "", usage := none
    choices := [{ index := 0
                  delta := { role := "", content := " there", toolCalls := [] }
                  finishReason := some "stop" }] }

/-- Upstream chunk carrying one tool-call fragment whose argument text has
trailing whitespace. -/
def c4Chunk : OpenAIStreamChunk :=
  { id := "y", object := "", created := 0, model := "m", usage := none
    choices := [{ index := 0
                  delta := { role := "", content := ""
                             toolCalls := [{ index := 0, id := "call_9", type := "function"
                                             function := { name := "f"
                                                           arguments := "\x7b\x7d " } }] }
                  finishReason := none }] }

/-- A started, unfinished tool block whose buffer has leading whitespace. -/
def c4WitnessBlock : AnthropicToolBlock :=
  { index := 0, id := "call_0", name := "f", arguments := " x", started := true
    finished := false, openAIIndex := 0 }

/-- Reframer state holding exactly `c4WitnessBlock`. -/
def c4WitnessState : AnthropicStreamState :=
  { initialStreamState with toolBlocks := [(0, c4WitnessBlock)] }

/-- Typed-block request with `top_k` explicitly set. -/
def c5Request : AnthropicRequest :=
  { model := "m", messages := [], system := JValue.null, maxTokens := 0
    temperature := none, topP := none, topK := some 40, stream := false
    tools := [], toolChoice := JValue.null, stopSequences := [] }

/-- Typed-block request with `max_tokens` and `stop_sequences` set. -/
def c5WitnessRequest : AnthropicRequest :=
  { model := "m", messages := [], system := JValue.null, maxTokens := 5
    temperature := none, topP := none, topK := none, stream := false
    tools := [], toolChoice := JValue.null, stopSequences := ["a"] }

/-- A tool_result content block as a decoded JSON object. -/
def c6Block : List (String × JValue) :=
  [("type", JValue.str "tool_result"), ("tool_use_id", JValue.str "t1"),
   ("content", JValue.str "ok")]

/-- Typed-block message whose content is exactly one tool_result block. -/
def c6Message : AnthropicMessage :=
  { role := "user", content := JValue.arr [JValue.obj c6Block] }

/-- Flat tool call whose arguments text is not valid JSON. -/
def c7ToolCall : OpenAIToolCall :=
  { id := "call_1", type := "function", function := { name := "f", arguments := "not-json" } }

/-- Flat response message carrying `c7ToolCall`. -/
def c7Message : OpenAIMessage :=
  { role := "assistant", content := JValue.null, toolCalls := [c7ToolCall], functionCall := none }

/-- The tool_use block of `c7Message`, as it comes back decoded from the
typed-block client. -/
def c7ToolUseFields : List (String × JValue) :=
  [("type", JValue.str "tool_use"), ("id", JValue.str "call_1"), ("name", JValue.str "f"),
   ("input", JValue.obj [("arguments", JValue.str "not-json")])]

/-- A 2xx upstream response with an empty choices array. -/
def c8Response : OpenAIResponse :=
  { id := "r", object := "", created := 0, model := "m", choices := []
    usage := { promptTokens := 0, completionTokens := 0, totalTokens := 0 } }

/-!
Helper lemmas for the stream-reframer index invariant.
-/

theorem startIndices_append (e1 e2 : List AnthropicStreamEvent) :
    startIndices (e1 ++ e2) = startIndices e1 ++ startIndices e2 := by
  simp [startIndices]

theorem startsBetween_nil (lo : Int) : StartsBetween lo lo [] :=
  ⟨List.Pairwise.nil, by simp [startIndices]⟩

theorem startsBetween_single (lo : Int) (idx : Int) (id name : String) (h : idx = lo) :
    StartsBetween lo (lo + 1) [AnthropicStreamEvent.contentBlockStartTool idx id name] := by
  subst h
  exact ⟨by simp [startIndices, startIndexOf], by simp [startIndices, startIndexOf]⟩

theorem startsBetween_no_starts {evs : List AnthropicStreamEvent}
    (h : startIndices evs = []) (lo : Int) : StartsBetween lo lo evs := by
  refine ⟨?_, ?_⟩
  · rw [h]; exact List.Pairwise.nil
  · intro i hi2
    rw [h] at hi2
    cases hi2

theorem startsBetween_append {lo mid hi : Int} {e1 e2 : List AnthropicStreamEvent}
    (hlm : lo ≤ mid) (hmh : mid ≤ hi)
    (h1 : StartsBetween lo mid e1) (h2 : StartsBetween mid hi e2) :
    StartsBetween lo hi (e1 ++ e2) := by
  constructor
  · rw [startIndices_append]
    refine List.pairwise_append.mpr ⟨h1.1, h2.1, ?_⟩
    intro a ha b hb
    exact lt_of_lt_of_le (h1.2 a ha).2 (h2.2 b hb).1
  · intro i hi2
    rw [startIndices_append] at hi2
    rcases List.mem_append.mp hi2 with h | h
    · exact ⟨(h1.2 i h).1, lt_of_lt_of_le (h1.2 i h).2 hmh⟩
    · exact ⟨le_trans hlm (h2.2 i h).1, (h2.2 i h).2⟩

theorem startsFrom_append {lo mid : Int} {e1 e2 : List AnthropicStreamEvent}
    (hlm : lo ≤ mid) (h1 : StartsBetween lo mid e1) (h2 : StartsFrom mid e2) :
    StartsFrom lo (e1 ++ e2) := by
  constructor
  · rw [startIndices_append]
    refine List.pairwise_append.mpr ⟨h1.1, h2.1, ?_⟩
    intro a ha b hb
    exact lt_of_lt_of_le (h1.2 a ha).2 (h2.2 b hb)
  · intro i hi2
    rw [startIndices_append] at hi2
    rcases List.mem_append.mp hi2 with h | h
    · exact (h1.2 i h).1
    · exact le_trans hlm (h2.2 i h)

theorem lookupToolBlock_mem {l : List (Int × AnthropicToolBlock)} {k : Int}
    {b : AnthropicToolBlock} (h : lookupToolBlock l k = some b) : (k, b) ∈ l := by
  induction l with
  | nil => cases h
  | cons p rest ih =>
    obtain ⟨k0, b0⟩ := p
    rw [lookupToolBlock] at h
    by_cases hk : k = k0
    · rw [if_pos hk] at h
      subst hk
      cases h
      exact List.mem_cons_self _ _
    · rw [if_neg hk] at h
      exact List.mem_cons_of_mem _ (ih h)

theorem toolBlocksStarted_update {l : List (Int × AnthropicToolBlock)} {k : Int}
    {b : AnthropicToolBlock} (h : ToolBlocksStarted l) (hb : b.started = true) :
    ToolBlocksStarted (updateToolBlock k b l) := by
  induction l with
  | nil => intro p hp; cases hp
  | cons q rest ih =>
    obtain ⟨k0, b0⟩ := q
    rw [updateToolBlock]
    split_ifs with hk
    · intro p hp
      rcases List.mem_cons.mp hp with rfl | hp2
      · exact hb
      · exact h p (List.mem_cons_of_mem _ hp2)
    · intro p hp
      rcases List.mem_cons.mp hp with rfl | hp2
      · exact h _ (List.mem_cons_self _ _)
      · exact ih (fun q hq => h q (List.mem_cons_of_mem _ hq)) p hp2

theorem toolBlocksStarted_append {l : List (Int × AnthropicToolBlock)} {k : Int}
    {b : AnthropicToolBlock} (h : ToolBlocksStarted l) (hb : b.started = true) :
    ToolBlocksStarted (l ++ [(k, b)]) := by
  intro p hp
  rcases List.mem_append.mp hp with h2 | h2
  · exact h p h2
  · rcases List.mem_singleton.mp h2 with rfl
    exact hb

theorem updateToolBlock_append_fresh {l : List (Int × AnthropicToolBlock)} {k : Int}
    {b0 bp : AnthropicToolBlock} (h : lookupToolBlock l k = none) :
    updateToolBlock k bp (l ++ [(k, b0)]) = l ++ [(k, bp)] := by
  induction l with
  | nil => simp [updateToolBlock]
  | cons q rest ih =>
    obtain ⟨k0, v0⟩ := q
    rw [lookupToolBlock] at h
    have hk : ¬(k = k0) := by
      intro he
      rw [if_pos he] at h
      cases h
    rw [if_neg hk] at h
    simp [updateToolBlock, hk, ih h]

theorem applyNameArgs_started (block : AnthropicToolBlock) (call : StreamToolCallDelta) :
    (applyNameArgs block call).started = block.started := by
  unfold applyNameArgs
  split_ifs <;> rfl

theorem applyNameArgs_index (block : AnthropicToolBlock) (call : StreamToolCallDelta) :
    (applyNameArgs block call).index = block.index := by
  unfold applyNameArgs
  split_ifs <;> rfl

theorem processToolCallDelta_spec (st : AnthropicStreamState) (call : StreamToolCallDelta)
    (h : ToolBlocksStarted st.toolBlocks) :
    ToolBlocksStarted (processToolCallDelta st call).1.toolBlocks ∧
    st.nextBlockIndex ≤ (processToolCallDelta st call).1.nextBlockIndex ∧
    StartsBetween st.nextBlockIndex (processToolCallDelta st call).1.nextBlockIndex
      (processToolCallDelta st call).2 := by
  unfold processToolCallDelta
  cases hfound : lookupToolBlock st.toolBlocks call.index with
  | some b =>
    have hb : b.started = true := h _ (lookupToolBlock_mem hfound)
    have hstb : (applyNameArgs b call).started = true := by
      rw [applyNameArgs_started]; exact hb
    simp only [hfound, finishToolCallDelta, hstb, if_true]
    exact ⟨toolBlocksStarted_update h hstb, le_refl _, startsBetween_nil _⟩
  | none =>
    have hstb : (applyNameArgs
        { index := st.nextBlockIndex
          id := (if call.id = "" then (genToolCallID st.idCtr, st.idCtr + 1)
            else (call.id, st.idCtr)).1
          name := call.function.name, arguments := "", started := false, finished := false
          openAIIndex := call.index } call).started = false := by
      rw [applyNameArgs_started]
    simp only [hfound, finishToolCallDelta, hstb, if_false, Bool.false_eq_true]
    refine ⟨?_, by simp, ?_⟩
    · rw [updateToolBlock_append_fresh hfound]
      exact toolBlocksStarted_append h rfl
    · have hidx := applyNameArgs_index
        { index := st.nextBlockIndex
          id := (if call.id = "" then (genToolCallID st.idCtr, st.idCtr + 1)
            else (call.id, st.idCtr)).1
          name := call.function.name, arguments := "", started := false, finished := false
          openAIIndex := call.index } call
      exact startsBetween_single _ _ _ _ hidx

theorem processToolCallList_spec (calls : List StreamToolCallDelta)
    (st : AnthropicStreamState) (h : ToolBlocksStarted st.toolBlocks) :
    ToolBlocksStarted (processToolCallList st calls).1.toolBlocks ∧
    st.nextBlockIndex ≤ (processToolCallList st calls).1.nextBlockIndex ∧
    StartsBetween st.nextBlockIndex (processToolCallList st calls).1.nextBlockIndex
      (processToolCallList st calls).2 := by
  induction calls generalizing st with
  | nil => exact ⟨h, le_refl _, startsBetween_nil _⟩
  | cons c rest ih =>
    obtain ⟨h1s, h1n, h1b⟩ := processToolCallDelta_spec st c h
    obtain ⟨h2s, h2n, h2b⟩ := ih (processToolCallDelta st c).1 h1s
    exact ⟨h2s, le_trans h1n h2n, startsBetween_append h1n h2n h1b h2b⟩

theorem applyFinishReason_toolBlocks (st : AnthropicStreamState) (choice : StreamChoice) :
    (applyFinishReason st choice).toolBlocks = st.toolBlocks := by
  unfold applyFinishReason
  cases choice.finishReason <;> rfl

theorem applyFinishReason_nextBlockIndex (st : AnthropicStreamState) (choice : StreamChoice) :
    (applyFinishReason st choice).nextBlockIndex = st.nextBlockIndex := by
  unfold applyFinishReason
  cases choice.finishReason <;> rfl

theorem processTextDelta_toolBlocks (st : AnthropicStreamState) (content : String) :
    (processTextDelta st content).1.toolBlocks = st.toolBlocks := by
  unfold processTextDelta
  split_ifs with h1 h2 <;> rfl

theorem processTextDelta_spec (st : AnthropicStreamState) (content : String) :
    st.nextBlockIndex ≤ (processTextDelta st content).1.nextBlockIndex ∧
    StartsBetween st.nextBlockIndex (processTextDelta st content).1.nextBlockIndex
      (processTextDelta st content).2 := by
  unfold processTextDelta
  split_ifs with h1 h2
  · exact ⟨le_refl _, ⟨by simp [startIndices, startIndexOf],
      by simp [startIndices, startIndexOf]⟩⟩
  · refine ⟨by simp, ⟨by simp [startIndices, startIndexOf], ?_⟩⟩
    intro i hi2
    simp [startIndices, startIndexOf] at hi2
    simp [hi2]
  · exact ⟨le_refl _, startsBetween_nil _⟩

theorem processChoice_spec (st : AnthropicStreamState) (choice : StreamChoice)
    (h : ToolBlocksStarted st.toolBlocks) :
    ToolBlocksStarted (processChoice st choice).1.toolBlocks ∧
    st.nextBlockIndex ≤ (processChoice st choice).1.nextBlockIndex ∧
    StartsBetween st.nextBlockIndex (processChoice st choice).1.nextBlockIndex
      (processChoice st choice).2 := by
  unfold processChoice
  have h0 : ToolBlocksStarted (applyFinishReason st choice).toolBlocks := by
    rw [applyFinishReason_toolBlocks]; exact h
  have h1 := processTextDelta_spec (applyFinishReason st choice) choice.delta.content
  have h1t : ToolBlocksStarted
      (processTextDelta (applyFinishReason st choice) choice.delta.content).1.toolBlocks := by
    rw [processTextDelta_toolBlocks]; exact h0
  have h2 := processToolCallList_spec choice.delta.toolCalls
    (processTextDelta (applyFinishReason st choice) choice.delta.content).1 h1t
  rw [applyFinishReason_nextBlockIndex] at h1
  exact ⟨h2.1, le_trans h1.1 h2.2.1,
    startsBetween_append h1.1 h2.2.1 h1.2 h2.2.2⟩

theorem processChoiceList_spec (choices : List StreamChoice)
    (st : AnthropicStreamState) (h : ToolBlocksStarted st.toolBlocks) :
    ToolBlocksStarted (processChoiceList st choices).1.toolBlocks ∧
    st.nextBlockIndex ≤ (processChoiceList st choices).1.nextBlockIndex ∧
    StartsBetween st.nextBlockIndex (processChoiceList st choices).1.nextBlockIndex
      (processChoiceList st choices).2 := by
  induction choices generalizing st with
  | nil => exact ⟨h, le_refl _, startsBetween_nil _⟩
  | cons c rest ih =>
    obtain ⟨h1s, h1n, h1b⟩ := processChoice_spec st c h
    obtain ⟨h2s, h2n, h2b⟩ := ih (processChoice st c).1 h1s
    exact ⟨h2s, le_trans h1n h2n, startsBetween_append h1n h2n h1b h2b⟩

theorem applyMessageStart_toolBlocks (fm : String) (st : AnthropicStreamState)
    (chunk : OpenAIStreamChunk) :
    (applyMessageStart fm st chunk).1.toolBlocks = st.toolBlocks := by
  unfold applyMessageStart
  split_ifs <;> rfl

theorem applyMessageStart_nextBlockIndex (fm : String) (st : AnthropicStreamState)
    (chunk : OpenAIStreamChunk) :
    (applyMessageStart fm st chunk).1.nextBlockIndex = st.nextBlockIndex := by
  unfold applyMessageStart
  split_ifs <;> rfl

theorem applyMessageStart_no_starts (fm : String) (st : AnthropicStreamState)
    (chunk : OpenAIStreamChunk) :
    startIndices (applyMessageStart fm st chunk).2 = [] := by
  unfold applyMessageStart
  split_ifs <;> simp [startIndices, startIndexOf]

theorem applyUsage_toolBlocks (st : AnthropicStreamState) (chunk : OpenAIStreamChunk) :
    (applyUsage st chunk).toolBlocks = st.toolBlocks := by
  unfold applyUsage
  cases chunk.usage <;> rfl

theorem applyUsage_nextBlockIndex (st : AnthropicStreamState) (chunk : OpenAIStreamChunk) :
    (applyUsage st chunk).nextBlockIndex = st.nextBlockIndex := by
  unfold applyUsage
  cases chunk.usage <;> rfl

theorem processChunk_spec (fm : String) (st : AnthropicStreamState)
    (chunk : OpenAIStreamChunk) (h : ToolBlocksStarted st.toolBlocks) :
    ToolBlocksStarted (processChunk fm st chunk).1.toolBlocks ∧
    st.nextBlockIndex ≤ (processChunk fm st chunk).1.nextBlockIndex ∧
    StartsBetween st.nextBlockIndex (processChunk fm st chunk).1.nextBlockIndex
      (processChunk fm st chunk).2 := by
  unfold processChunk
  have h2t : ToolBlocksStarted (applyUsage (applyMessageStart fm st chunk).1 chunk).toolBlocks := by
    rw [applyUsage_toolBlocks, applyMessageStart_toolBlocks]; exact h
  have hc := processChoiceList_spec chunk.choices
    (applyUsage (applyMessageStart fm st chunk).1 chunk) h2t
  rw [applyUsage_nextBlockIndex, applyMessageStart_nextBlockIndex] at hc
  refine ⟨hc.1, hc.2.1, ?_⟩
  exact startsBetween_append (le_refl _) hc.2.1
    (startsBetween_no_starts (applyMessageStart_no_starts fm st chunk) _) hc.2.2

theorem startIndices_closeToolBlocks (l : List (Int × AnthropicToolBlock)) :
    startIndices (closeToolBlocks l) = [] := by
  induction l with
  | nil => rfl
  | cons p rest ih =>
    obtain ⟨k, b⟩ := p
    rw [closeToolBlocks, startIndices_append, startIndices_append, ih]
    split_ifs <;> simp [startIndices, startIndexOf]

theorem startIndices_closeStreamEvents (st : AnthropicStreamState) :
    startIndices (closeStreamEvents st) = [] := by
  unfold closeStreamEvents
  rw [startIndices_append, startIndices_append, startIndices_append,
    startIndices_closeToolBlocks]
  cases st.lastFinishReason <;> split_ifs <;> simp [startIndices, startIndexOf]

theorem runStream_startsFrom (fm : String) (items : List StreamItem)
    (st : AnthropicStreamState) (h : ToolBlocksStarted st.toolBlocks) :
    StartsFrom st.nextBlockIndex (runStream fm st items) := by
  induction items generalizing st with
  | nil =>
    refine ⟨?_, ?_⟩
    · rw [runStream]; exact List.Pairwise.nil
    · intro i hi2; rw [runStream] at hi2; cases hi2
  | cons item rest ih =>
    cases item with
    | done =>
      rw [runStream]
      refine ⟨?_, ?_⟩
      · rw [startIndices_closeStreamEvents]; exact List.Pairwise.nil
      · intro i hi2
        rw [startIndices_closeStreamEvents] at hi2
        cases hi2
    | malformed =>
      rw [runStream]
      exact ih st h
    | chunk c =>
      rw [runStream]
      obtain ⟨hcs, hcn, hcb⟩ := processChunk_spec fm st c h
      exact startsFrom_append hcn hcb (ih _ hcs)

theorem closeToolBlocks_blockClose (l : List (Int × AnthropicToolBlock))
    (k : Int) (b : AnthropicToolBlock) (hmem : (k, b) ∈ l)
    (hstarted : b.started = true) (hfin : b.finished = false)
    (hargs : trimSpace b.arguments ≠ "") :
    List.IsInfix
      [AnthropicStreamEvent.inputJsonDelta b.index (trimSpace b.arguments),
       AnthropicStreamEvent.contentBlockStop b.index]
      (closeToolBlocks l) := by
  induction l with
  | nil => cases hmem
  | cons p rest ih =>
    rcases List.mem_cons.mp hmem with heq | hmemr
    · rw [← heq]
      rw [closeToolBlocks]
      rw [if_pos ⟨hstarted, hargs⟩, if_pos ⟨hstarted, by simp [hfin]⟩]
      exact ⟨[], closeToolBlocks rest, by simp⟩
    · refine (ih hmemr).trans ?_
      rw [closeToolBlocks]
      exact (List.suffix_append _ _).isInfix

/-!
Claim theorems.
-/

/-- Claim C1 (counterexample): the claim "whenever hasToolCalls is true and
the finish reason is not literally stop, the result is ToolUse" fails at
finish reason `"length"` with `hasToolCalls = true`: `"length"` is not
`"stop"`, yet `mapStopReason` returns `"max_tokens"`, not `"tool_use"` —
the `length` case of the switch takes precedence over tool calls. -/
theorem mapStopReason_length_with_toolCalls_not_toolUse :
    ("length" : String) ≠ "stop" ∧ mapStopReason "length" true ≠ "tool_use" := by
  decide

/-- Claim C1 (amended): for every upstream finish reason `f` and boolean
`hasToolCalls`, `f = "length"` maps to max_tokens, and whenever
`hasToolCalls` is true and `f` is neither literally `"stop"` nor literally
`"length"`, the result is tool_use. -/
theorem mapStopReason_amended_spec (f : String) (h : Bool) :
    (f = "length" → mapStopReason f h = "max_tokens") ∧
    (h = true → f ≠ "stop" → f ≠ "length" → mapStopReason f h = "tool_use") := by
  constructor
  · intro hf
    simp [mapStopReason, hf]
  · intro hh hs hl
    unfold mapStopReason
    rw [if_neg hl, if_neg hs, hh]
    split_ifs with h1 h2
    · rfl
    · rfl
    · exact absurd rfl h2

/-- Claim C1 (witness): the amended mapping evaluated at `"length"` and at
an unknown finish reason with tool calls. -/
theorem mapStopReason_amended_spec_witness :
    mapStopReason "length" false = "max_tokens" ∧ mapStopReason "other" true = "tool_use" :=
  ⟨(mapStopReason_amended_spec "length" false).1 rfl,
   (mapStopReason_amended_spec "other" true).2 rfl (by decide) (by decide)⟩

/-- Claim C2: fed the chunk `(id:"x", model:"m", delta content "Hi")`, then
the chunk `(delta content " there", finish_reason "stop")`, then the
`[DONE]` marker, the stream reframer emits exactly, in order:
`message_start`(id x, model m), `content_block_start`(index 0, text),
`content_block_delta`("Hi"), `content_block_delta`(" there"),
`content_block_stop`(index 0), `message_delta`(stop reason end_turn), and
`message_stop`. -/
theorem streamReframe_text_scenario :
    streamOpenAIToAnthropic "req-model"
      [StreamItem.chunk c2chunk1, StreamItem.chunk c2chunk2, StreamItem.done] =
    [AnthropicStreamEvent.messageStart "x" "m",
     AnthropicStreamEvent.contentBlockStartText 0,
     AnthropicStreamEvent.contentBlockDeltaText 0 "Hi",
     AnthropicStreamEvent.contentBlockDeltaText 0 " there",
     AnthropicStreamEvent.contentBlockStop 0,
     AnthropicStreamEvent.messageDelta "end_turn" 0 none,
     AnthropicStreamEvent.messageStop] := by
  decide

/-- Claim C3: for every sequence of upstream stream items processed by one
reframer instance, the content-block indices carried by the emitted
`content_block_start` events — the indices assigned to blocks, in order of
first appearance — are strictly increasing, and no index is ever assigned
twice within the request. -/
theorem streamReframe_blockIndices_strictly_increasing (fm : String)
    (items : List StreamItem) :
    List.Pairwise (· < ·) (startIndices (streamOpenAIToAnthropic fm items)) ∧
    (startIndices (streamOpenAIToAnthropic fm items)).Nodup := by
  have h := runStream_startsFrom fm items initialStreamState (by intro p hp; cases hp)
  exact ⟨h.1, List.Pairwise.imp (fun hlt => ne_of_lt hlt) h.1⟩

/-- Claim C3 (witness): the invariant evaluated on a concrete one-chunk
stream. -/
theorem streamReframe_blockIndices_strictly_increasing_witness :
    List.Pairwise (· < ·)
      (startIndices (streamOpenAIToAnthropic "m" [StreamItem.chunk c2chunk1, StreamItem.done])) :=
  (streamReframe_blockIndices_strictly_increasing "m"
    [StreamItem.chunk c2chunk1, StreamItem.done]).1

/-- Claim C4 (counterexample): the claim that the final input_json_delta
carries the full buffered argument text unmodified fails when the buffer
has trailing whitespace: a single fragment with arguments `"{} "`
(brace, brace, space) yields a closing delta whose partial_json is the
whitespace-trimmed `"{}"`, not the unmodified buffer. -/
theorem streamClose_trims_toolArgs_counterexample :
    streamOpenAIToAnthropic "m" [StreamItem.chunk c4Chunk, StreamItem.done] =
      [AnthropicStreamEvent.messageStart "y" "m",
       AnthropicStreamEvent.contentBlockStartTool 0 "call_9" "f",
       AnthropicStreamEvent.inputJsonDelta 0 "\x7b\x7d",
       AnthropicStreamEvent.contentBlockStop 0,
       AnthropicStreamEvent.messageStop] ∧
    ("\x7b\x7d" : String) ≠ "\x7b\x7d " := by
  decide

/-- Claim C4 (amended): at stream close, every tool block that was started
and not yet finished and whose whitespace-trimmed accumulated argument
buffer is non-empty gets one final `content_block_delta` of type
input_json_delta carrying the trimmed buffered text, immediately followed
by that block's `content_block_stop`. -/
theorem streamClose_toolBlock_delta_then_stop (st : AnthropicStreamState) (k : Int)
    (b : AnthropicToolBlock) (hmem : (k, b) ∈ st.toolBlocks) (hstarted : b.started = true)
    (hfin : b.finished = false) (hargs : trimSpace b.arguments ≠ "") :
    List.IsInfix
      [AnthropicStreamEvent.inputJsonDelta b.index (trimSpace b.arguments),
       AnthropicStreamEvent.contentBlockStop b.index]
      (closeStreamEvents st) := by
  have h := closeToolBlocks_blockClose st.toolBlocks k b hmem hstarted hfin hargs
  refine h.trans ?_
  refine ⟨(if st.textBlockStarted then
      [AnthropicStreamEvent.contentBlockStop st.textBlockIndex] else []),
    (match st.lastFinishReason with
      | some r =>
        [AnthropicStreamEvent.messageDelta (mapStopReason r st.hasToolCalls)
          st.completionTokens (if st.promptTokens > 0 then some st.promptTokens else none)]
      | none => []) ++ [AnthropicStreamEvent.messageStop], ?_⟩
  unfold closeStreamEvents
  simp [List.append_assoc]

/-- Claim C4 (witness): the closing emission for a state holding one
started block whose buffer is `" x"`. -/
theorem streamClose_toolBlock_delta_then_stop_witness :
    List.IsInfix
      [AnthropicStreamEvent.inputJsonDelta 0 "x", AnthropicStreamEvent.contentBlockStop 0]
      (closeStreamEvents c4WitnessState) :=
  streamClose_toolBlock_delta_then_stop c4WitnessState 0 c4WitnessBlock
    (List.mem_singleton.mpr rfl) rfl rfl (by decide)

/-- Claim C5 (counterexample): the Gin `HandleAnthropic` request builder
never forwards `top_k`: on a request with `top_k = 40` explicitly set the
built flat request carries no `top_k`. -/
theorem ginHandleAnthropic_drops_topK :
    c5Request.topK = some 40 ∧ (ginBuildOpenAIChatRequest c5Request 0).1.topK = none :=
  ⟨rfl, rfl⟩

/-- Claim C5 (amended): for every typed-block request, the monolithic
handler's flat request contains `max_tokens` exactly when the request's
max_tokens is positive, `temperature`/`top_p`/`top_k` exactly when each is
set, and `stop` exactly when stop_sequences is non-empty, each carrying the
request's value unchanged; the Gin handler builds the same fields except
that it never includes `top_k`, even when set. -/
theorem request_knob_passthrough (req : AnthropicRequest) (ctr : Nat) :
    ((∃ v, (buildOpenAIChatRequest req ctr).1.maxTokens = some v) ↔ req.maxTokens > 0) ∧
    (∀ v, (buildOpenAIChatRequest req ctr).1.maxTokens = some v → v = req.maxTokens) ∧
    (buildOpenAIChatRequest req ctr).1.temperature = req.temperature ∧
    (buildOpenAIChatRequest req ctr).1.topP = req.topP ∧
    (buildOpenAIChatRequest req ctr).1.topK = req.topK ∧
    ((∃ s, (buildOpenAIChatRequest req ctr).1.stop = some s) ↔ req.stopSequences ≠ []) ∧
    (∀ s, (buildOpenAIChatRequest req ctr).1.stop = some s → s = req.stopSequences) ∧
    (ginBuildOpenAIChatRequest req ctr).1.maxTokens =
      (buildOpenAIChatRequest req ctr).1.maxTokens ∧
    (ginBuildOpenAIChatRequest req ctr).1.temperature = req.temperature ∧
    (ginBuildOpenAIChatRequest req ctr).1.topP = req.topP ∧
    (ginBuildOpenAIChatRequest req ctr).1.stop = (buildOpenAIChatRequest req ctr).1.stop ∧
    (ginBuildOpenAIChatRequest req ctr).1.topK = none := by
  have hmax : (buildOpenAIChatRequest req ctr).1.maxTokens =
      if req.maxTokens > 0 then some req.maxTokens else none := rfl
  have hstop : (buildOpenAIChatRequest req ctr).1.stop =
      if req.stopSequences.length > 0 then some req.stopSequences else none := rfl
  refine ⟨?_, ?_, rfl, rfl, rfl, ?_, ?_, rfl, rfl, rfl, rfl, rfl⟩
  · rw [hmax]
    split_ifs with h <;> simp [h]
  · intro v hv
    rw [hmax] at hv
    split_ifs at hv with h
    exact (Option.some.inj hv).symm
  · rw [hstop]
    split_ifs with h
    · simp [List.length_pos.mp h]
    · have h0 : req.stopSequences = [] :=
        List.length_eq_zero.mp (Nat.eq_zero_of_not_pos h)
      simp [h0]
  · intro s hs
    rw [hstop] at hs
    split_ifs at hs with h
    exact (Option.some.inj hs).symm

/-- Claim C5 (witness): the passthrough evaluated on a request with
max_tokens 5 and one stop sequence. -/
theorem request_knob_passthrough_witness :
    (∃ v, (buildOpenAIChatRequest c5WitnessRequest 0).1.maxTokens = some v) ∧
    (∃ s, (buildOpenAIChatRequest c5WitnessRequest 0).1.stop = some s) := by
  have h := request_knob_passthrough c5WitnessRequest 0
  exact ⟨h.1.mpr (by decide), h.2.2.2.2.2.1.mpr (by simp [c5WitnessRequest])⟩

/-- Items of an all-tool_result content parse to no text parts, no tool
calls, and one flat tool message per block, in order. -/
theorem parseAnthropicItems_toolResults (blocks : List JValue)
    (hall : ∀ b ∈ blocks, isToolResultObj b) (ctr : Nat) :
    parseAnthropicItems blocks ctr = ([], [], blocks.map toolResultFlat, ctr) := by
  induction blocks generalizing ctr with
  | nil => rfl
  | cons b rest ih =>
    obtain ⟨fields, hb, htype⟩ := hall b (List.mem_cons_self b rest)
    subst hb
    have hrest := ih (fun x hx => hall x (List.mem_cons_of_mem _ hx))
    simp [parseAnthropicItems, parseAnthropicBlock, htype, hrest, toolResultFlat]

/-- Claim C6: a typed-block message whose content is a non-empty array
consisting only of tool_result blocks (no text parts, no tool_use blocks)
expands to zero main messages and exactly one flat tool-role message per
tool_result block, in the original block order. -/
theorem convertAnthropicMessage_toolResults_only (msg : AnthropicMessage)
    (blocks : List JValue) (ctr : Nat) (hc : msg.content = JValue.arr blocks)
    (hne : blocks ≠ []) (hall : ∀ b ∈ blocks, isToolResultObj b) :
    convertAnthropicMessage msg ctr = (blocks.map toolResultFlat, ctr) := by
  unfold convertAnthropicMessage
  rw [show parseAnthropicContent msg.content ctr = ([], [], blocks.map toolResultFlat, ctr) by
    rw [hc]; exact parseAnthropicItems_toolResults blocks hall ctr]
  simp [List.length_eq_zero, hne]

/-- Claim C6 (witness): the expansion of a message holding exactly one
tool_result block. -/
theorem convertAnthropicMessage_toolResults_only_witness :
    convertAnthropicMessage c6Message 0 = ([FlatMessage.tool "t1" "ok"], 0) :=
  convertAnthropicMessage_toolResults_only c6Message [JValue.obj c6Block] 0 rfl
    (by simp)
    (fun b hb => by
      rw [List.mem_singleton.mp hb]
      exact ⟨c6Block, rfl, rfl⟩)

/-- Claim C7: non-JSON tool-call argument text round-trips losslessly:
converting a flat call with arguments `"not-json"` yields a tool_use block
whose input is the envelope object `(arguments: "not-json")`, and
converting that block back to a flat call serializes its input to the JSON
text `{"arguments":"not-json"}` (braces elided in this comment's code
spans), preserving the raw string inside the envelope. -/
theorem toolCallArgs_nonjson_roundtrip :
    parseToolCallArgs "not-json" = JValue.obj [("arguments", JValue.str "not-json")] ∧
    buildAnthropicContentBlocks (some c7Message) 0 =
      ([{ type := "tool_use", text := "", id := "call_1", name := "f",
          input := JValue.obj [("arguments", JValue.str "not-json")] }], 0) ∧
    parseAnthropicBlock c7ToolUseFields 0 =
      ([], [{ id := "call_1", name := "f",
              arguments := "\x7b\"arguments\":\"not-json\"\x7d" }], [], 0) :=
  ⟨rfl, rfl, rfl⟩

/-- Claim C8: on a decoded 2xx upstream response, the response translation
of `handleAnthropic` fails (HTTP 502 upstream-protocol error) exactly when
the response has no choices or its first choice has no message; in all
other cases it produces a typed-block response. -/
theorem translateOpenAIResponse_failure_iff (reqModel : String) (resp : OpenAIResponse)
    (ctr : Nat) :
    ((∃ e, translateOpenAIResponse reqModel resp ctr = Except.error e) ↔
      (resp.choices.head?.bind (fun c => c.message)) = none) ∧
    ((∃ out, translateOpenAIResponse reqModel resp ctr = Except.ok out) ↔
      (∃ m, resp.choices.head?.bind (fun c => c.message) = some m)) := by
  cases hc : resp.choices with
  | nil => simp [translateOpenAIResponse, hc]
  | cons c rest =>
    cases hm : c.message with
    | none => simp [translateOpenAIResponse, hc, hm]
    | some m => simp [translateOpenAIResponse, hc, hm]

/-- Claim C8 (witness): the translation fails on a response with no
choices. -/
theorem translateOpenAIResponse_failure_iff_witness :
    ∃ e, translateOpenAIResponse "m" c8Response 0 = Except.error e :=
  (translateOpenAIResponse_failure_iff "m" c8Response 0).1.mpr rfl

/-- Claim C9: in the Gin implementation, the 2xx branch of
`handleAnthropicStream` copies the upstream byte stream to the caller
verbatim — the output bytes equal the upstream body bytes, so no
typed-block events are synthesized; the reframing into
message_start/content_block/message_stop events exists only in the
monolithic `streamOpenAIToAnthropic` (which emits typed events even for a
bare `[DONE]` stream). -/
theorem ginStream_passthrough_verbatim :
    (∀ body : List Char, ginStreamPassthrough body = body) ∧
    streamOpenAIToAnthropic "m" [StreamItem.done] = [AnthropicStreamEvent.messageStop] :=
  ⟨fun _ => rfl, rfl⟩

/-- Claim C9 (witness): the passthrough evaluated on a concrete body. -/
theorem ginStream_passthrough_verbatim_witness :
    ginStreamPassthrough ['d', 'a', 't', 'a'] = ['d', 'a', 't', 'a'] :=
  ginStream_passthrough_verbatim.1 ['d', 'a', 't', 'a']

/-- Claim C10: for every finish-reason string and boolean, the stop-reason
mapping returns one of exactly `"max_tokens"`, `"end_turn"`, `"tool_use"`;
the `Other` classification of the StopReason enum is never produced. -/
theorem mapStopReason_three_values (f : String) (h : Bool) :
    classifyStopReason (mapStopReason f h) ≠ StopReason.other ∧
    (mapStopReason f h = "max_tokens" ∨ mapStopReason f h = "end_turn" ∨
      mapStopReason f h = "tool_use") := by
  unfold mapStopReason
  split_ifs <;> exact ⟨by decide, by decide⟩

/-- Claim C10 (witness): the mapping evaluated at an unknown finish
reason. -/
theorem mapStopReason_three_values_witness :
    classifyStopReason (mapStopReason "flurb" false) ≠ StopReason.other :=
  (mapStopReason_three_values "flurb" false).1
